import Mathlib

/-! Verification of the FilterToSchema transform and the default merged field
resolver of the graphql-tools repository, over a shallow embedding of
`src/transforms/FilterToSchema.ts` and `src/stitching/defaultMergedResolver.ts`. -/

namespace GQL

/-- Argument and input values of the query AST (ValueNode). Variables may occur
inside argument values; the remaining values are atomic literals. -/
inductive GValue where
  | var (name : String)
  | intVal (n : Int)
  | strVal (s : String)
  | boolVal (b : Bool)
  | nullVal
deriving Repr, DecidableEq

/-- Argument node of a field: a name and a value. -/
structure Argument where
  name : String
  value : GValue
deriving Repr, DecidableEq

mutual
/-- Selection nodes of the query AST: Field (alias, name, arguments, optional
sub-selection set), FragmentSpread (reference by name) and InlineFragment
(optional type condition and a selection set). -/
inductive Selection where
  | field (aliasName : Option String) (name : String) (arguments : List Argument)
      (sub : Option SelectionSet)
  | fragmentSpread (name : String)
  | inlineFragment (typeCondition : Option String) (sub : SelectionSet)
/-- SelectionSet node: a sequence of selections. -/
inductive SelectionSet where
  | nil
  | cons (s : Selection) (rest : SelectionSet)
end

/-- Variable names occurring in one value node. -/
def varsOfValue : GValue → List String
  | .var n => [n]
  | _ => []

/-- Variable names occurring in an argument list, in document order. -/
def varsOfArgs (args : List Argument) : List String :=
  (args.map (fun a => varsOfValue a.value)).flatten

mutual
/-- Variable names occurring in a selection node, in the order the
`Kind.VARIABLE` visitor of `graphql.visit` encounters them (a field's
arguments are traversed before its sub-selection set). -/
def selVars : Selection → List String
  | .field _ _ args sub =>
      varsOfArgs args ++ (match sub with | none => [] | some ss => selsVars ss)
  | .fragmentSpread _ => []
  | .inlineFragment _ ss => selsVars ss
/-- Variable names occurring in a selection set, in document order. -/
def selsVars : SelectionSet → List String
  | .nil => []
  | .cons s rest => selVars s ++ selsVars rest
end

mutual
/-- Fragment-spread names occurring in a selection node, in document order. -/
def selSpreads : Selection → List String
  | .field _ _ _ sub => (match sub with | none => [] | some ss => selsSpreads ss)
  | .fragmentSpread n => [n]
  | .inlineFragment _ ss => selsSpreads ss
/-- Fragment-spread names occurring in a selection set, in document order. -/
def selsSpreads : SelectionSet → List String
  | .nil => []
  | .cons s rest => selSpreads s ++ selsSpreads rest
end

/-- Type references (GraphQLType shapes): named types and List/NonNull
wrappers. -/
inductive GType where
  | named (name : String)
  | list (ofType : GType)
  | nonNull (ofType : GType)
deriving Repr, DecidableEq

/-- Field definition on an Object or Interface type: the field name, its
declared argument names, and the field's declared type. -/
structure FieldDef where
  name : String
  args : List String
  type : GType
deriving Repr, DecidableEq

/-- Named type definitions of the schema. Objects carry the interfaces they
implement and their fields; unions carry their member type names. -/
inductive TypeDef where
  | objectT (interfaces : List String) (fields : List FieldDef)
  | interfaceT (fields : List FieldDef)
  | unionT (members : List String)
  | scalarT
  | enumT
  | inputObjectT
deriving Repr, DecidableEq

/-- Schema: named type definitions plus the root operation type names. -/
structure GSchema where
  types : List (String × TypeDef)
  queryType : Option String
  mutationType : Option String
  subscriptionType : Option String
deriving Repr

/-- Name lookup in the schema's type map (`schema.getType`). The built-in
scalars are always present, as in graphql-js. -/
def GSchema.getType (s : GSchema) (n : String) : Option TypeDef :=
  match s.types.find? (fun p => p.1 == n) with
  | some p => some p.2
  | none =>
      if n == ("String") || n == ("Int") || n == ("Float") || n == ("Boolean") || n == ("ID")
      then some .scalarT else none

/-- Unwrap List and NonNull wrappers down to the underlying named type
(the `resolveType` helper of FilterToSchema.ts). -/
def resolveTypeName : GType → String
  | .named n => n
  | .list t => resolveTypeName t
  | .nonNull t => resolveTypeName t

/-- Fields of an Object or Interface definition, `none` for the other kinds. -/
def fieldsOfDef : TypeDef → Option (List FieldDef)
  | .objectT _ fields => some fields
  | .interfaceT fields => some fields
  | _ => none

/-- Whether a (possibly missing) type definition is an Object or an Interface
(the `instanceof GraphQLObjectType || instanceof GraphQLInterfaceType` check). -/
def isObjectOrInterface : Option TypeDef → Bool
  | some (.objectT _ _) => true
  | some (.interfaceT _) => true
  | _ => false

/-- Whether a (possibly missing) type definition is a Union type. -/
def isUnion : Option TypeDef → Bool
  | some (.unionT _) => true
  | _ => false

/-- Synthetic `__typename` meta field (graphql-js `TypeNameMetaFieldDef`):
no arguments, type `String!`. -/
def typenameMetaField : FieldDef :=
  { name := ("__typename"), args := [], type := .nonNull (.named ("String")) }

/-- Modelled from the spec: the repository helper `implementsAbstractType`
(src/implementsAbstractType.ts) is not among the provided sources. Per the
spec (section 4.1) it is an "implements-or-equals" compatibility check over
interfaces and unions: two named types are compatible when they are equal,
when one is an object implementing the other interface, or when one is a
union containing the other object. -/
def implementsAbstractType (schema : GSchema) (typeA typeB : Option String) : Bool :=
  match typeA, typeB with
  | some a, some b =>
      a == b ||
        (match schema.getType a, schema.getType b with
         | some (.objectT ifaces _), some (.interfaceT _) => ifaces.contains b
         | some (.interfaceT _), some (.objectT ifaces _) => ifaces.contains a
         | some (.objectT _ _), some (.unionT members) => members.contains a
         | some (.unionT members), some (.objectT _ _) => members.contains b
         | _, _ => false)
  | _, _ => false

/-- Remove the first occurrence of a string from a list (the
`usedVariables.splice(usedVariables.indexOf(name), 1)` step). -/
def removeFirst : List String → String → List String
  | [], _ => []
  | h :: t, v => if h == v then t else h :: removeFirst t v

/-- Remove, for each name in `names` in order, its first occurrence from `l`
(the `visit(node, Kind.VARIABLE)` removal loop on a deleted field). -/
def spliceAll (l : List String) (names : List String) : List String :=
  names.foldl removeFirst l

/-- Property names every plain JavaScript object inherits from
`Object.prototype`; reading them on a fresh `{}` yields a truthy value. -/
def jsObjectProtoKeys : List String :=
  [("constructor"), ("hasOwnProperty"), ("isPrototypeOf"), ("propertyIsEnumerable"),
   ("toLocaleString"), ("toString"), ("valueOf"),
   ("__defineGetter__"), ("__defineSetter__"), ("__lookupGetter__"),
   ("__lookupSetter__"), ("__proto__")]

/-- The source's `union` helper restricted to two arrays: concatenation
deduplicated through a plain `{}` cache object read with `!cache[item]`.
Reading a fresh `{}` also finds the properties inherited from
`Object.prototype`, so names such as `toString` are treated as already seen
and silently dropped. -/
def union2 (a b : List String) : List String :=
  (a ++ b).foldl
    (fun acc item =>
      if acc.contains item || jsObjectProtoKeys.contains item then acc
      else acc ++ [item]) []

/-- Mutable state of the `visit` traversal in `filterSelectionSet`: the type
stack plus the used-fragment and used-variable arrays (top of stack = head). -/
structure FState where
  typeStack : List GType
  usedFragments : List String
  usedVariables : List String

/-- Resolved name of the top of the type stack
(`resolveType(typeStack[typeStack.length - 1])`; an empty stack behaves like
the undefined array access in the source). -/
def topName (st : FState) : Option String :=
  st.typeStack.head?.map resolveTypeName

/-- Resolved named-type definition of the top of the type stack. -/
def topDef (schema : GSchema) (st : FState) : Option TypeDef :=
  (topName st).bind schema.getType

/-- Variable names of a (possibly edited) field node, in the order the
removal visit of the leave handler encounters them. -/
def fieldNodeVars (args : List Argument) (sub : Option SelectionSet) : List String :=
  varsOfArgs args ++ (match sub with | none => [] | some ss => selsVars ss)

/-- Leave handler of `Kind.FIELD`: pop the stack unconditionally; when the
popped type resolves to an Object/Interface and the edited field's
sub-selection set is missing or empty, delete the field and remove one
occurrence of each of its variable references from the used-variable array. -/
def fieldLeave (schema : GSchema) (st : FState) (aliasName : Option String)
    (name : String) (args : List Argument) (sub : Option SelectionSet) :
    Option Selection × FState :=
  if isObjectOrInterface ((topName st).bind schema.getType) then
    match sub with
    | none =>
        (none, FState.mk st.typeStack.tail st.usedFragments
          (spliceAll st.usedVariables (fieldNodeVars args none)))
    | some .nil =>
        (none, FState.mk st.typeStack.tail st.usedFragments
          (spliceAll st.usedVariables (fieldNodeVars args (some .nil))))
    | some (.cons a b) =>
        (some (.field aliasName name args (some (.cons a b))),
         FState.mk st.typeStack.tail st.usedFragments st.usedVariables)
  else
    (some (.field aliasName name args sub),
     FState.mk st.typeStack.tail st.usedFragments st.usedVariables)

mutual
/-- Processing of one selection by the `visit` callbacks of
`filterSelectionSet`: enter, traversal of children, and leave, returning the
edited node (`none` for a deleted node) and the updated traversal state. -/
def filterSel (schema : GSchema) (vf : List (String × String)) (st : FState) :
    Selection → Option Selection × FState
  | .field aliasName name args sub =>
      match (topDef schema st).bind fieldsOfDef with
      | some fields =>
          match (if name == ("__typename") then some typenameMetaField
                 else fields.find? (fun f => f.name == name)) with
          | none => (none, st)
          | some fd =>
              let args' := args.filter (fun a => fd.args.contains a.name)
              let st1 : FState :=
                { st with typeStack := fd.type :: st.typeStack,
                          usedVariables := st.usedVariables ++ varsOfArgs args' }
              let p := match sub with
                | none => ((none : Option SelectionSet), st1)
                | some ss =>
                    let q := filterSels schema vf st1 ss
                    (some q.1, q.2)
              fieldLeave schema p.2 aliasName name args' p.1
      | none =>
          match topDef schema st, name == ("__typename") with
          | some (.unionT _), true =>
              let st1 : FState :=
                { st with typeStack := typenameMetaField.type :: st.typeStack,
                          usedVariables := st.usedVariables ++ varsOfArgs args }
              let p := match sub with
                | none => ((none : Option SelectionSet), st1)
                | some ss =>
                    let q := filterSels schema vf st1 ss
                    (some q.1, q.2)
              fieldLeave schema p.2 aliasName name args p.1
          | _, _ =>
              let st1 : FState :=
                { st with usedVariables := st.usedVariables ++ varsOfArgs args }
              let p := match sub with
                | none => ((none : Option SelectionSet), st1)
                | some ss =>
                    let q := filterSels schema vf st1 ss
                    (some q.1, q.2)
              fieldLeave schema p.2 aliasName name args p.1
  | .fragmentSpread name =>
      match vf.find? (fun pr => pr.1 == name) with
      | some pr =>
          if implementsAbstractType schema (topName st) (some pr.2)
          then (some (.fragmentSpread name),
                { st with usedFragments := st.usedFragments ++ [name] })
          else (none, st)
      | none => (none, st)
  | .inlineFragment cond ss =>
      match cond with
      | some c =>
          let innerName : Option String := if (schema.getType c).isSome then some c else none
          if implementsAbstractType schema (topName st) innerName then
            let st1 : FState := { st with typeStack := GType.named c :: st.typeStack }
            let q := filterSels schema vf st1 ss
            (some (.inlineFragment cond q.1), { q.2 with typeStack := q.2.typeStack.tail })
          else (none, st)
      | none =>
          let q := filterSels schema vf st ss
          (some (.inlineFragment none q.1), { q.2 with typeStack := q.2.typeStack.tail })
/-- Processing of a selection set: left-to-right over the selections,
threading the traversal state and dropping deleted nodes. -/
def filterSels (schema : GSchema) (vf : List (String × String)) (st : FState) :
    SelectionSet → SelectionSet × FState
  | .nil => (.nil, st)
  | .cons s rest =>
      let p := filterSel schema vf st s
      let q := filterSels schema vf p.2 rest
      (match p.1 with
       | some x => .cons x q.1
       | none => q.1, q.2)
end

/-- Result record of `filterSelectionSet`. -/
structure FilterOut where
  selections : SelectionSet
  usedFragments : List String
  usedVariables : List String

/-- The source's `filterSelectionSet(schema, type, validFragments,
selectionSet)`: type-directed filter of one selection set, returning the
filtered set together with the used fragment and variable names. -/
def filterSelectionSet (schema : GSchema) (type? : Option GType)
    (vf : List (String × String)) (ss : SelectionSet) : FilterOut :=
  let st0 : FState :=
    { typeStack := match type? with | some t => [t] | none => [],
      usedFragments := [], usedVariables := [] }
  let p := filterSels schema vf st0 ss
  { selections := p.1, usedFragments := p.2.usedFragments, usedVariables := p.2.usedVariables }

def tinySchema : GSchema :=
  ⟨[(("Q"), .objectT [] [⟨("a"), [("x")], .named ("String")⟩])], some ("Q"), none, none⟩

/-- Fragment definition node: name, type condition and selection set. -/
structure FragDef where
  name : String
  typeCondition : String
  selections : SelectionSet

/-- Operation kinds. -/
inductive OpKind where
  | query
  | mutation
  | subscription
deriving Repr, DecidableEq

/-- Variable definition on an operation: the variable name and its printed
type reference. -/
structure VariableDefinition where
  varName : String
  typeRef : String
deriving Repr, DecidableEq

/-- Operation definition node. -/
structure OperationDef where
  operation : OpKind
  name : Option String
  variableDefinitions : List VariableDefinition
  selections : SelectionSet

/-- Executable definitions of a document. -/
inductive Definition where
  | opD (op : OperationDef)
  | fragD (f : FragDef)

/-- Document node: a list of definitions. -/
structure DocumentNode where
  definitions : List Definition

/-- Operation definitions of a document, in order. -/
def docOperations (doc : DocumentNode) : List OperationDef :=
  doc.definitions.filterMap (fun d => match d with | .opD o => some o | _ => none)

/-- Fragment definitions of a document, in order. -/
def docFragments (doc : DocumentNode) : List FragDef :=
  doc.definitions.filterMap (fun d => match d with | .fragD f => some f | _ => none)

/-- Fragments whose type condition exists in the target schema (the
`validFragments` array of `filterDocumentToSchema`). -/
def validFragmentsOf (schema : GSchema) (doc : DocumentNode) : List FragDef :=
  (docFragments doc).filter (fun fr => (schema.getType fr.typeCondition).isSome)

/-- The `validFragmentsWithType` name-to-type-condition map. It is built by
object-property assignment in the source, so on duplicate fragment names the
later definition wins; the list is reversed so that `find?` returns the last
assignment. -/
def validFragmentsWithTypeOf (schema : GSchema) (doc : DocumentNode) :
    List (String × String) :=
  ((validFragmentsOf schema doc).map (fun fr => (fr.name, fr.typeCondition))).reverse

/-- State of the `collectFragmentVariables` while-loop. `worklist` is the
local `usedFragments` array; `callerArray` tracks the contents of the array
object the caller passed in, which the loop drains in place via `pop()` until
the first `union(...)` rebinds the local variable; `aliased` records whether
the local still aliases the caller's array. -/
structure CState where
  worklist : List String
  callerArray : List String
  aliased : Bool
  usedVariables : List String
  newFragments : List FragDef
  fragmentSet : List String

/-- One iteration of the `collectFragmentVariables` loop body (`pop()` takes
the last element of the worklist). -/
def collectStep (schema : GSchema) (vfrags : List FragDef) (vf : List (String × String))
    (s : CState) : CState :=
  match s.worklist.getLast? with
  | none => s
  | some nextName =>
      let rest := s.worklist.dropLast
      let callerArr' := if s.aliased then rest else s.callerArray
      match vfrags.find? (fun fr => fr.name == nextName) with
      | none => { s with worklist := rest, callerArray := callerArr' }
      | some frag =>
          let type? : Option GType :=
            if (schema.getType frag.typeCondition).isSome
            then some (.named frag.typeCondition) else none
          let r := filterSelectionSet schema type? vf frag.selections
          let worklist' := union2 rest r.usedFragments
          let usedVariables' := union2 s.usedVariables r.usedVariables
          if s.fragmentSet.contains nextName then
            { s with worklist := worklist', callerArray := callerArr', aliased := false,
                     usedVariables := usedVariables' }
          else
            { s with worklist := worklist', callerArray := callerArr', aliased := false,
                     usedVariables := usedVariables',
                     newFragments := s.newFragments ++
                       [⟨nextName, frag.typeCondition, r.selections⟩],
                     fragmentSet := s.fragmentSet ++ [nextName] }

/-- The while-loop of `collectFragmentVariables`, with explicit fuel: `none`
means the fuel ran out before the worklist emptied. -/
def collectLoop (schema : GSchema) (vfrags : List FragDef) (vf : List (String × String)) :
    Nat → CState → Option CState
  | 0, s => if s.worklist.isEmpty then some s else none
  | n + 1, s =>
      if s.worklist.isEmpty then some s
      else collectLoop schema vfrags vf n (collectStep schema vfrags vf s)

/-- Result of `collectFragmentVariables`, together with the final contents of
the caller's partially drained used-fragments array. -/
structure CollectOut where
  usedVariables : List String
  newFragments : List FragDef
  fragmentSet : List String
  callerArray : List String

/-- The source's `collectFragmentVariables`: worklist computation of the
fragment closure starting from the used-fragment names. -/
def collectFragmentVariables (schema : GSchema) (fuel : Nat) (fragmentSet : List String)
    (vfrags : List FragDef) (vf : List (String × String)) (usedFragments : List String) :
    Option CollectOut :=
  (collectLoop schema vfrags vf fuel
      ⟨usedFragments, usedFragments, true, [], [], fragmentSet⟩).map
    (fun s => ⟨s.usedVariables, s.newFragments, s.fragmentSet, s.callerArray⟩)

/-- Root type of an operation (`getQueryType` / `getMutationType` /
`getSubscriptionType`). -/
def opRootType (schema : GSchema) (k : OpKind) : Option GType :=
  (match k with
   | .subscription => schema.subscriptionType
   | .mutation => schema.mutationType
   | .query => schema.queryType).map GType.named

/-- Accumulator of the per-operation loop in `filterDocumentToSchema`. -/
structure DocState where
  usedFragments : List String
  newOperations : List OperationDef
  newFragments : List FragDef
  fragmentSet : List String

/-- The `operations.forEach` loop of `filterDocumentToSchema`. Source-faithful
quirks: `newFragments` is overwritten with each operation's collected list,
`fragmentSet` accumulates across operations, and the outer `usedFragments`
variable keeps pointing at the array `collectFragmentVariables` drained in
place. -/
def processOperations (schema : GSchema) (fuel : Nat) (vfrags : List FragDef)
    (vf : List (String × String)) : List OperationDef → DocState → Option DocState
  | [], s => some s
  | op :: rest, s =>
      let type? := opRootType schema op.operation
      let r := filterSelectionSet schema type? vf op.selections
      let usedFragments1 := union2 s.usedFragments r.usedFragments
      match collectFragmentVariables schema fuel s.fragmentSet vfrags vf usedFragments1 with
      | none => none
      | some c =>
          let fullUsedVariables := union2 r.usedVariables c.usedVariables
          let variableDefinitions := op.variableDefinitions.filter
            (fun vd => fullUsedVariables.contains vd.varName)
          let newOp : OperationDef :=
            ⟨op.operation, op.name, variableDefinitions, r.selections⟩
          processOperations schema fuel vfrags vf rest
            ⟨c.callerArray, s.newOperations ++ [newOp], c.newFragments, c.fragmentSet⟩

/-- The source's `filterDocumentToSchema`, with explicit fuel bounding the
fragment-closure worklist loops. -/
def filterDocumentToSchema (schema : GSchema) (fuel : Nat) (doc : DocumentNode) :
    Option DocumentNode :=
  (processOperations schema fuel (validFragmentsOf schema doc)
      (validFragmentsWithTypeOf schema doc) (docOperations doc)
      ⟨[], [], [], []⟩).map
    (fun s => ⟨s.newOperations.map Definition.opD ++ s.newFragments.map Definition.fragD⟩)

/-- Request record (spec section 3): document, variable values and operation
type. `variableValues` embeds the source's `variables` field, whose name is a
reserved word here. -/
structure Request where
  document : DocumentNode
  variableValues : List (String × GValue)
  operationType : OpKind

/-- `FilterToSchema.transformRequest`: rebuild the request with the filtered
document, spreading every other request field unchanged. -/
def transformRequest (targetSchema : GSchema) (fuel : Nat) (r : Request) : Option Request :=
  (filterDocumentToSchema targetSchema fuel r.document).map
    (fun d => { r with document := d })

/-- Fragment-spread names occurring anywhere in a document. -/
def docSpreads (doc : DocumentNode) : List String :=
  (doc.definitions.map (fun d => match d with
    | .opD o => selsSpreads o.selections
    | .fragD f => selsSpreads f.selections)).flatten

/-- Names of the fragment definitions of a document. -/
def docFragNames (doc : DocumentNode) : List String :=
  (docFragments doc).map (fun f => f.name)

mutual
/-- Spec-side checker for the empty-selection pruning property (claim C3):
walking a document with correctly tracked parent types, no field whose
resolved type is an Object/Interface may carry an empty or missing
sub-selection set. Positions whose type cannot be resolved are
unconstrained. -/
def pruneOkSel (schema : GSchema) (cur : Option String) : Selection → Bool
  | .field _ name _ sub =>
      match (cur.bind schema.getType).bind fieldsOfDef with
      | some fields =>
          match (if name == ("__typename") then some typenameMetaField
                 else fields.find? (fun f => f.name == name)) with
          | some fd =>
              let tn := resolveTypeName fd.type
              (if isObjectOrInterface (schema.getType tn) then
                 (match sub with | some (.cons _ _) => true | _ => false)
               else true) &&
                (match sub with | none => true | some ss => pruneOkSels schema (some tn) ss)
          | none => (match sub with | none => true | some ss => pruneOkSels schema none ss)
      | none => (match sub with | none => true | some ss => pruneOkSels schema none ss)
  | .fragmentSpread _ => true
  | .inlineFragment cond ss =>
      pruneOkSels schema (match cond with | some c => some c | none => cur) ss
/-- Selection-set version of the pruning checker. -/
def pruneOkSels (schema : GSchema) (cur : Option String) : SelectionSet → Bool
  | .nil => true
  | .cons s rest => pruneOkSel schema cur s && pruneOkSels schema cur rest
end

/-- Document-level pruning checker: every operation checked against its root
type and every fragment definition against its type condition. -/
def pruneOkDoc (schema : GSchema) (doc : DocumentNode) : Bool :=
  (docOperations doc).all (fun op =>
    pruneOkSels schema ((opRootType schema op.operation).map resolveTypeName) op.selections)
    && (docFragments doc).all (fun fr =>
         pruneOkSels schema (some fr.typeCondition) fr.selections)

mutual
/-- Spec-side validity of a selection against the schema (claim C4's "already
valid against S"): the field exists on its parent type, all its arguments are
declared, Object/Interface-typed fields carry a non-empty valid sub-selection
set, other fields carry none, inline fragments carry an existing compatible
type condition, and every fragment spread names an entry of the
name-to-type-condition map `vf` whose type condition is compatible with the
current type. -/
def validSel (schema : GSchema) (vf : List (String × String)) (cur : String) :
    Selection → Bool
  | .field _ name args sub =>
      match (schema.getType cur).bind fieldsOfDef with
      | some fields =>
          match (if name == ("__typename") then some typenameMetaField
                 else fields.find? (fun f => f.name == name)) with
          | some fd =>
              args.all (fun a => fd.args.contains a.name) &&
                (let tn := resolveTypeName fd.type
                 if isObjectOrInterface (schema.getType tn) then
                   match sub with
                   | some (.cons s rest) => validSels schema vf tn (.cons s rest)
                   | _ => false
                 else sub.isNone)
          | none => false
      | none => false
  | .fragmentSpread name =>
      match vf.find? (fun pr => pr.1 == name) with
      | some pr => implementsAbstractType schema (some cur) (some pr.2)
      | none => false
  | .inlineFragment cond ss =>
      match cond with
      | some c =>
          (schema.getType c).isSome &&
            implementsAbstractType schema (some cur) (some c) &&
            validSels schema vf c ss
      | none => false
/-- Selection-set version of the validity checker. -/
def validSels (schema : GSchema) (vf : List (String × String)) (cur : String) :
    SelectionSet → Bool
  | .nil => true
  | .cons s rest => validSel schema vf cur s && validSels schema vf cur rest
end

/-! Embedding of `src/stitching/defaultMergedResolver.ts`. -/

/-- Response path keys: field response keys or list indices. -/
inductive PathKey where
  | key (s : String)
  | index (n : Nat)
deriving Repr, DecidableEq

/-- Execution error: a message and a response path. -/
structure GError where
  message : String
  path : List PathKey
deriving Repr, DecidableEq

/-- JavaScript-like runtime values for the resolver model. Objects carry their
properties plus the error-annotation side channel. -/
inductive JSValue where
  | nullV
  | undefinedV
  | boolV (b : Bool)
  | intV (n : Int)
  | strV (s : String)
  | obj (fields : List (String × JSValue)) (errors : List GError)

/-- JavaScript truthiness: null, undefined, false, 0 and the empty string are
falsy; objects are always truthy. -/
def falsy : JSValue → Bool
  | .nullV => true
  | .undefinedV => true
  | .boolV b => !b
  | .intV n => n == 0
  | .strV s => s == ""
  | .obj _ _ => false

/-- Whether a value is null or undefined (the loose `result == null` check). -/
def isNullish : JSValue → Bool
  | .nullV => true
  | .undefinedV => true
  | _ => false

/-- Property lookup, yielding undefined for absent keys and non-objects. -/
def lookupField : JSValue → String → JSValue
  | .obj fields _, k =>
      match fields.find? (fun p => p.1 == k) with
      | some p => p.2
      | none => .undefinedV
  | _, _ => .undefinedV

/-- Error annotations attached to a value (the side channel read by
`getErrorsFromParent`); non-objects carry none. -/
def parentErrors : JSValue → List GError
  | .obj _ errs => errs
  | _ => []

/-- Classified error lookup result: an error attached directly to the field's
response key, or the list of errors belonging to descendants under it. -/
inductive ErrorResult where
  | own (e : GError)
  | childrenOf (errors : List GError)
deriving Repr, DecidableEq

/-- Modelled from the spec: the repository helper `getErrorsFromParent`
(src/stitching/errors.ts) is not among the provided sources. Per the spec
(section 4.7) it inspects the parent's error-annotation side channel: an
error attached directly to this field's response key is reported as an OWN
error; errors belonging to descendants under that key are reported as
children errors with the leading key stripped. -/
def getErrorsFromParent (errors : List GError) (responseKey : String) : ErrorResult :=
  match errors.find? (fun e => e.path == [PathKey.key responseKey]) with
  | some e => .own e
  | none =>
      .childrenOf ((errors.filter
          (fun e => e.path.head? == some (PathKey.key responseKey))).map
        (fun e => { e with path := e.path.tail }))

/-- Resolve info for the model: the field name, the optional alias of the
requesting field node, and the caller's own response path. -/
structure ResolveInfo where
  fieldName : String
  aliasKey : Option String
  path : List PathKey
deriving Repr, DecidableEq

/-- Modelled from the spec: the repository helper `getResponseKeyFromInfo`
(src/stitching/getResponseKeyFromInfo.ts) is not among the provided sources.
Per the spec it returns the field's response key: the alias when the
requesting field carries one, the field name otherwise. -/
def getResponseKeyFromInfo (info : ResolveInfo) : String :=
  match info.aliasKey with
  | some a => a
  | none => info.fieldName

/-- Modelled from the spec: `annotateWithChildrenErrors`
(src/stitching/errors.ts) is not among the provided sources. Per the spec
(section 4.7) it forwards an annotated value: the descendant errors are
attached to the returned value's side channel so the recursive check
re-fires at the next resolution level. -/
def annotateWithChildrenErrors (result : JSValue) (errors : List GError) : JSValue :=
  match result with
  | .obj fields _ => .obj fields errors
  | v => v

/-- The graphql library's `locatedError` applied to `new Error(message)` and
`responsePathAsArray(info.path)` (an external collaborator): it produces an
error carrying the original message and the given response path. -/
def locatedErrorAt (message : String) (path : List PathKey) : GError :=
  ⟨message, path⟩

/-- Embedding of `defaultMergedResolver`: `.error` models a thrown error,
`.ok` a returned value. -/
def defaultMergedResolver (parent : JSValue) (info : ResolveInfo) :
    Except GError JSValue :=
  if falsy parent then .ok .nullV
  else
    let responseKey := getResponseKeyFromInfo info
    match getErrorsFromParent (parentErrors parent) responseKey with
    | .own e => .error (locatedErrorAt e.message info.path)
    | .childrenOf errs =>
        let result0 := lookupField parent responseKey
        let result1 := if isNullish result0 then lookupField parent info.fieldName else result0
        let dataV := lookupField parent ("data")
        let result2 :=
          if falsy result1 && !falsy dataV && !falsy (lookupField dataV responseKey)
          then lookupField dataV responseKey else result1
        .ok (annotateWithChildrenErrors result2 errs)

/-! Concrete schemas and documents used by witnesses, failing inputs and
counterexamples. -/

/-- Schema with root `Query` exposing `t : T` and `s : String`, and an object
type `T` with a single scalar field `x`. -/
def schemaTS : GSchema :=
  ⟨[(("Query"), .objectT [] [⟨("t"), [], .named ("T")⟩, ⟨("s"), [], .named ("String")⟩]),
    (("T"), .objectT [] [⟨("x"), [], .named ("String")⟩])],
   some ("Query"), none, none⟩

/-- Named query operation `query <name> { t { ...F } }`. -/
def opUsingF (opName : String) : OperationDef :=
  ⟨.query, some opName, [],
   .cons (.field none ("t") [] (some (.cons (.fragmentSpread ("F")) .nil))) .nil⟩

/-- Fragment `fragment F on T { x }`. -/
def fragF : FragDef :=
  ⟨("F"), ("T"), .cons (.field none ("x") [] none) .nil⟩

/-- Two-operation document: the first operation spreads fragment `F`, the
second uses no fragments; `F` is defined in the document. -/
def docC1 : DocumentNode :=
  ⟨[.opD (opUsingF ("Op1")),
    .opD ⟨.query, some ("Op2"), [], .cons (.field none ("s") [] none) .nil⟩,
    .fragD fragF]⟩

/-- Two-operation document in which both operations spread fragment `F`;
every field, fragment and type condition exists on `schemaTS`. -/
def docC4 : DocumentNode :=
  ⟨[.opD (opUsingF ("Op1")), .opD (opUsingF ("Op2")), .fragD fragF]⟩

/-- Self-referential fragment `fragment A on T { x ...A }`. -/
def fragA : FragDef :=
  ⟨("A"), ("T"),
   .cons (.field none ("x") [] none) (.cons (.fragmentSpread ("A")) .nil)⟩

/-- Operation `query { t { ...A } }`. -/
def opUsingA : OperationDef :=
  ⟨.query, none, [],
   .cons (.field none ("t") [] (some (.cons (.fragmentSpread ("A")) .nil))) .nil⟩

/-- Document whose fragment definitions are cyclic: `A` spreads itself. -/
def docC2 : DocumentNode := ⟨[.opD opUsingA, .fragD fragA]⟩

/-- The state reached by the collect loop on `docC2` after one iteration: the
already-emitted fragment name is back on the worklist, and one further
iteration reproduces this state exactly. -/
def cStateA : CState := ⟨[("A")], [], false, [], [fragA], [("A")]⟩

/-- Schema with root `Query` exposing scalar `a : String` and object-typed
`k : O`, where `O` has a single scalar field `z`. -/
def schemaC3 : GSchema :=
  ⟨[(("Query"), .objectT [] [⟨("a"), [], .named ("String")⟩, ⟨("k"), [], .named ("O")⟩]),
    (("O"), .objectT [] [⟨("z"), [], .named ("String")⟩])],
   some ("Query"), none, none⟩

/-- Document `{ a { b } k { ...F } }` against `schemaC3`: the bogus
sub-selection under the scalar field `a` desynchronises the type stack, and
the undefined spread `F` empties the sub-selection of the object-typed
field `k`. -/
def docC3 : DocumentNode :=
  ⟨[.opD ⟨.query, none, [],
     .cons (.field none ("a") [] (some (.cons (.field none ("b") [] none) .nil)))
       (.cons (.field none ("k") [] (some (.cons (.fragmentSpread ("F")) .nil))) .nil)⟩]⟩

/-! Theorems. Helper lemmas come first, the per-claim theorems afterwards. -/

theorem collectStep_cStateA_fix :
    collectStep schemaTS (validFragmentsOf schemaTS docC2)
      (validFragmentsWithTypeOf schemaTS docC2) cStateA = cStateA := rfl

theorem collectLoop_cStateA (n : Nat) :
    collectLoop schemaTS (validFragmentsOf schemaTS docC2)
      (validFragmentsWithTypeOf schemaTS docC2) n cStateA = none := by
  induction n with
  | zero => rfl
  | succ n ih =>
      rw [collectLoop, if_neg (by simp [cStateA]), collectStep_cStateA_fix]
      exact ih

theorem collectLoop_docC2_init (n : Nat) :
    collectLoop schemaTS (validFragmentsOf schemaTS docC2)
      (validFragmentsWithTypeOf schemaTS docC2) n
      ⟨[("A")], [("A")], true, [], [], []⟩ = none := by
  cases n with
  | zero => rfl
  | succ n =>
      rw [collectLoop, if_neg (by simp)]
      have hstep : collectStep schemaTS (validFragmentsOf schemaTS docC2)
          (validFragmentsWithTypeOf schemaTS docC2) ⟨[("A")], [("A")], true, [], [], []⟩
          = cStateA := rfl
      rw [hstep]
      exact collectLoop_cStateA n

/-- Claim C2: the fragment-closure worklist loop is claimed to terminate for
every input, including cyclic fragment references. On the self-referential
fragment `A` of `docC2` the loop re-enqueues the already-emitted name on
every iteration, so no amount of fuel suffices: `filterDocumentToSchema`
never produces a document. -/
theorem claim_C2_collect_nonterminating (fuel : Nat) :
    filterDocumentToSchema schemaTS fuel docC2 = none := by
  have h : collectFragmentVariables schemaTS fuel []
      (validFragmentsOf schemaTS docC2) (validFragmentsWithTypeOf schemaTS docC2)
      [("A")] = none := by
    unfold collectFragmentVariables
    rw [collectLoop_docC2_init fuel]
    rfl
  simp only [filterDocumentToSchema, processOperations]
  rw [show (union2 (DocState.mk [] [] [] []).usedFragments
        (filterSelectionSet schemaTS (opRootType schemaTS opUsingA.operation)
          (validFragmentsWithTypeOf schemaTS docC2) opUsingA.selections).usedFragments)
      = [("A")] from rfl]
  rw [h]
  rfl

/-- Claim C1: fragment-closure soundness fails on the two-operation document
`docC1`: the filtered output still spreads `F` inside the first operation,
but contains no fragment definition at all, because the per-operation loop
overwrites `newFragments` with the last operation's (empty) collected list. -/
theorem claim_C1_dangling_spread_eval :
    (filterDocumentToSchema schemaTS 10 docC1).map
      (fun d => (docSpreads d, docFragNames d)) = some ([("F")], []) := by
  rfl

/-- Claim C3: on `docC3` the bogus sub-selection under the scalar field `a`
desynchronises the type stack, so the object-typed field `k`, whose
sub-selection was emptied by filtering, survives in the output: the output
document violates the empty-selection pruning property. -/
theorem claim_C3_unpruned_empty_field_eval :
    pruneOkDoc schemaC3 docC3 = true ∧
      (filterDocumentToSchema schemaC3 10 docC3).map (pruneOkDoc schemaC3)
        = some false := by
  exact ⟨rfl, rfl⟩

/-- Claim C9: `transformRequest` only replaces the `document` field of the
request; the variable values and the operation type are returned unchanged. -/
theorem claim_C9_transformRequest_frame (schema : GSchema) (fuel : Nat)
    (r r' : Request) (h : transformRequest schema fuel r = some r') :
    r'.variableValues = r.variableValues ∧ r'.operationType = r.operationType := by
  unfold transformRequest at h
  cases hd : filterDocumentToSchema schema fuel r.document with
  | none => rw [hd] at h; simp at h
  | some d =>
      rw [hd] at h
      rw [Option.map_some'] at h
      injection h with h2
      subst h2
      exact ⟨rfl, rfl⟩

/-- Request carrying `docC3` together with variable values (used by the C9
witness). -/
def reqC9 : Request := ⟨docC3, [(("v"), GValue.intVal 3)], .query⟩

/-- The request produced by `transformRequest` on `reqC9` (the filtered
document, with all other fields unchanged). -/
def reqC9out : Request :=
  ⟨⟨[.opD ⟨.query, none, [],
      .cons (.field none ("a") [] (some (.cons (.field none ("b") [] none) .nil)))
        (.cons (.field none ("k") [] (some .nil)) .nil)⟩]⟩,
   [(("v"), GValue.intVal 3)], .query⟩

/-- Witness for claim C9 at a concrete request whose document does change. -/
theorem claim_C9_witness :
    reqC9out.variableValues = reqC9.variableValues ∧
      reqC9out.operationType = reqC9.operationType :=
  claim_C9_transformRequest_frame schemaC3 10 reqC9 reqC9out rfl

/-- Claim C10: a falsy parent value makes the default merged resolver return
null immediately, for every resolve info and in particular regardless of any
error annotations. -/
theorem claim_C10_falsy_parent_null (parent : JSValue) (info : ResolveInfo)
    (h : falsy parent = true) :
    defaultMergedResolver parent info = .ok .nullV := by
  unfold defaultMergedResolver
  rw [h]
  rfl

/-- Witness for claim C10 at the null parent. -/
theorem claim_C10_witness :
    falsy .nullV = true ∧
      defaultMergedResolver .nullV ⟨("f"), none, []⟩ = .ok .nullV :=
  ⟨rfl, claim_C10_falsy_parent_null .nullV ⟨("f"), none, []⟩ rfl⟩

/-- Claim C6: when the parent carries an error attached directly to this
field's response key, the default merged resolver throws a located error
whose message is the annotated error's message and whose path is the
caller's own field path. -/
theorem claim_C6_own_error_rethrown (parent : JSValue) (info : ResolveInfo)
    (e : GError) (hp : falsy parent = false)
    (he : getErrorsFromParent (parentErrors parent) (getResponseKeyFromInfo info)
      = .own e) :
    defaultMergedResolver parent info = .error ⟨e.message, info.path⟩ := by
  unfold defaultMergedResolver
  rw [hp]
  simp only [Bool.false_eq_true, if_false]
  rw [he]
  rfl

/-- Witness for claim C6: a parent carrying an OWN error for response key
`f`, resolved at caller path `outer`. -/
theorem claim_C6_witness :
    defaultMergedResolver (.obj [] [⟨("boom"), [PathKey.key ("f")]⟩])
        ⟨("f"), none, [PathKey.key ("outer")]⟩
      = .error ⟨("boom"), [PathKey.key ("outer")]⟩ :=
  claim_C6_own_error_rethrown (.obj [] [⟨("boom"), [PathKey.key ("f")]⟩])
    ⟨("f"), none, [PathKey.key ("outer")]⟩ ⟨("boom"), [PathKey.key ("f")]⟩ rfl rfl

theorem suffix_cons_tail {α : Type} {l m : List α} {x : α} (h : l.IsSuffix (x :: m)) :
    l.tail.IsSuffix m := by
  obtain ⟨t, ht⟩ := h
  cases t with
  | nil => simp at ht; rw [ht]; exact List.suffix_rfl
  | cons y t' =>
      have h2 : l.IsSuffix m := ⟨t', by simpa using congrArg List.tail ht⟩
      exact (List.tail_suffix l).trans h2

theorem fieldLeave_typeStack (schema : GSchema) (st : FState) (a : Option String)
    (n : String) (args : List Argument) (sub : Option SelectionSet) :
    (fieldLeave schema st a n args sub).2.typeStack = st.typeStack.tail := by
  unfold fieldLeave
  split
  · split <;> rfl
  · rfl

theorem fieldLeave_none_sub (schema : GSchema) (st : FState) (a : Option String)
    (n : String) (args : List Argument) (sub : Option SelectionSet)
    (h : (fieldLeave schema st a n args sub).1 = none) :
    sub = none ∨ sub = some .nil := by
  unfold fieldLeave at h
  split at h
  · split at h
    · exact Or.inl rfl
    · exact Or.inr rfl
    · simp at h
  · simp at h

theorem fieldLeave_none_obj (schema : GSchema) (st : FState) (a : Option String)
    (n : String) (args : List Argument) (sub : Option SelectionSet)
    (h : (fieldLeave schema st a n args sub).1 = none) :
    isObjectOrInterface ((topName st).bind schema.getType) = true := by
  unfold fieldLeave at h
  split at h
  · rename_i hc; exact hc
  · simp at h

theorem fieldVisit_stack_push (schema : GSchema) (a : Option String) (n : String)
    (args : List Argument) (t : GType) (base : List GType)
    (subR : Option SelectionSet) (stR : FState)
    (hsuf : stR.typeStack.IsSuffix (t :: base))
    (hemp : subR = none ∨ subR = some .nil → stR.typeStack = t :: base) :
    (fieldLeave schema stR a n args subR).2.typeStack.IsSuffix base ∧
      ((fieldLeave schema stR a n args subR).1 = none →
        (fieldLeave schema stR a n args subR).2.typeStack = base) := by
  constructor
  · rw [fieldLeave_typeStack]
    exact suffix_cons_tail hsuf
  · intro hnone
    rw [fieldLeave_typeStack, hemp (fieldLeave_none_sub schema stR a n args subR hnone)]
    rfl

theorem fieldVisit_stack_nopush (schema : GSchema) (a : Option String) (n : String)
    (args : List Argument) (base : List GType)
    (subR : Option SelectionSet) (stR : FState)
    (hsuf : stR.typeStack.IsSuffix base)
    (hemp : subR = none ∨ subR = some .nil → stR.typeStack = base)
    (hnotobj : isObjectOrInterface ((base.head?.map resolveTypeName).bind schema.getType)
      = false) :
    (fieldLeave schema stR a n args subR).2.typeStack.IsSuffix base ∧
      ((fieldLeave schema stR a n args subR).1 = none →
        (fieldLeave schema stR a n args subR).2.typeStack = base) := by
  constructor
  · rw [fieldLeave_typeStack]
    exact (List.tail_suffix _).trans hsuf
  · intro hnone
    exfalso
    have hobj := fieldLeave_none_obj schema stR a n args subR hnone
    simp only [topName] at hobj
    rw [hemp (fieldLeave_none_sub schema stR a n args subR hnone)] at hobj
    rw [hnotobj] at hobj
    exact Bool.noConfusion hobj

theorem bind_fieldsOfDef_none {td : Option TypeDef}
    (h : td.bind fieldsOfDef = none) : isObjectOrInterface td = false := by
  cases td with
  | none => rfl
  | some t => cases t <;> simp_all [fieldsOfDef, isObjectOrInterface]

theorem stackSel_field_none (schema : GSchema) (vf : List (String × String)) (st : FState)
    (aliasName : Option String) (name : String) (args : List Argument) :
    (filterSel schema vf st (.field aliasName name args none)).2.typeStack.IsSuffix
        st.typeStack ∧
      ((filterSel schema vf st (.field aliasName name args none)).1 = none →
        (filterSel schema vf st (.field aliasName name args none)).2.typeStack
          = st.typeStack) := by
  simp only [filterSel]
  cases hpd : (topDef schema st).bind fieldsOfDef with
  | some fields =>
      simp only [hpd]
      cases hfd : (if name == ("__typename") then some typenameMetaField
                   else fields.find? (fun f => f.name == name)) with
      | none => exact ⟨List.suffix_rfl, fun _ => rfl⟩
      | some fd =>
          simp only [hfd]
          exact fieldVisit_stack_push schema aliasName name _ fd.type st.typeStack
            none _ List.suffix_rfl (fun _ => rfl)
  | none =>
      have hnotobj : isObjectOrInterface (topDef schema st) = false :=
        bind_fieldsOfDef_none hpd
      simp only [hpd]
      split
      · exact fieldVisit_stack_push schema aliasName name _ typenameMetaField.type
          st.typeStack none _ List.suffix_rfl (fun _ => rfl)
      · exact fieldVisit_stack_nopush schema aliasName name _ st.typeStack
          none _ List.suffix_rfl (fun _ => rfl) hnotobj

theorem stackSel_field_some (schema : GSchema) (vf : List (String × String)) (st : FState)
    (aliasName : Option String) (name : String) (args : List Argument) (ss : SelectionSet)
    (IH : ∀ st' : FState,
      (filterSels schema vf st' ss).2.typeStack.IsSuffix st'.typeStack ∧
        ((filterSels schema vf st' ss).1 = .nil →
          (filterSels schema vf st' ss).2.typeStack = st'.typeStack)) :
    (filterSel schema vf st (.field aliasName name args (some ss))).2.typeStack.IsSuffix
        st.typeStack ∧
      ((filterSel schema vf st (.field aliasName name args (some ss))).1 = none →
        (filterSel schema vf st (.field aliasName name args (some ss))).2.typeStack
          = st.typeStack) := by
  simp only [filterSel]
  cases hpd : (topDef schema st).bind fieldsOfDef with
  | some fields =>
      simp only [hpd]
      cases hfd : (if name == ("__typename") then some typenameMetaField
                   else fields.find? (fun f => f.name == name)) with
      | none => exact ⟨List.suffix_rfl, fun _ => rfl⟩
      | some fd =>
          simp only [hfd]
          refine fieldVisit_stack_push schema aliasName name _ fd.type st.typeStack
            _ _ ?_ ?_
          · exact (IH _).1
          · intro h
            rcases h with h | h
            · exact Option.noConfusion h
            · exact (IH _).2 (Option.some.inj h)
  | none =>
      have hnotobj : isObjectOrInterface (topDef schema st) = false :=
        bind_fieldsOfDef_none hpd
      simp only [hpd]
      split
      · refine fieldVisit_stack_push schema aliasName name _ typenameMetaField.type
          st.typeStack _ _ ?_ ?_
        · exact (IH _).1
        · intro h
          rcases h with h | h
          · exact Option.noConfusion h
          · exact (IH _).2 (Option.some.inj h)
      · refine fieldVisit_stack_nopush schema aliasName name _ st.typeStack
          _ _ ?_ ?_ hnotobj
        · exact (IH _).1
        · intro h
          rcases h with h | h
          · exact Option.noConfusion h
          · exact (IH _).2 (Option.some.inj h)

theorem stackSel_spread (schema : GSchema) (vf : List (String × String)) (st : FState)
    (name : String) :
    (filterSel schema vf st (.fragmentSpread name)).2.typeStack.IsSuffix st.typeStack ∧
      ((filterSel schema vf st (.fragmentSpread name)).1 = none →
        (filterSel schema vf st (.fragmentSpread name)).2.typeStack = st.typeStack) := by
  simp only [filterSel]
  split
  · split
    · exact ⟨List.suffix_rfl, fun h => by simp at h⟩
    · exact ⟨List.suffix_rfl, fun _ => rfl⟩
  · exact ⟨List.suffix_rfl, fun _ => rfl⟩

theorem stackSel_inline (schema : GSchema) (vf : List (String × String)) (st : FState)
    (cond : Option String) (ss : SelectionSet)
    (IH : ∀ st' : FState,
      (filterSels schema vf st' ss).2.typeStack.IsSuffix st'.typeStack ∧
        ((filterSels schema vf st' ss).1 = .nil →
          (filterSels schema vf st' ss).2.typeStack = st'.typeStack)) :
    (filterSel schema vf st (.inlineFragment cond ss)).2.typeStack.IsSuffix st.typeStack ∧
      ((filterSel schema vf st (.inlineFragment cond ss)).1 = none →
        (filterSel schema vf st (.inlineFragment cond ss)).2.typeStack = st.typeStack) := by
  cases cond with
  | some c =>
      simp only [filterSel]
      cases hi : implementsAbstractType schema (topName st)
          (if (schema.getType c).isSome then some c else none) with
      | true =>
          rw [if_pos rfl]
          constructor
          · exact suffix_cons_tail (IH (FState.mk (GType.named c :: st.typeStack)
              st.usedFragments st.usedVariables)).1
          · intro h; simp at h
      | false =>
          rw [if_neg (by simp)]
          exact ⟨List.suffix_rfl, fun _ => rfl⟩
  | none =>
      simp only [filterSel]
      constructor
      · exact (List.tail_suffix _).trans (IH st).1
      · intro h; simp at h

theorem stackSels_cons (schema : GSchema) (vf : List (String × String)) (st : FState)
    (s : Selection) (rest : SelectionSet)
    (hp : (filterSel schema vf st s).2.typeStack.IsSuffix st.typeStack ∧
      ((filterSel schema vf st s).1 = none →
        (filterSel schema vf st s).2.typeStack = st.typeStack))
    (IH : ∀ st' : FState,
      (filterSels schema vf st' rest).2.typeStack.IsSuffix st'.typeStack ∧
        ((filterSels schema vf st' rest).1 = .nil →
          (filterSels schema vf st' rest).2.typeStack = st'.typeStack)) :
    (filterSels schema vf st (.cons s rest)).2.typeStack.IsSuffix st.typeStack ∧
      ((filterSels schema vf st (.cons s rest)).1 = .nil →
        (filterSels schema vf st (.cons s rest)).2.typeStack = st.typeStack) := by
  simp only [filterSels]
  have hq := IH (filterSel schema vf st s).2
  constructor
  · exact hq.1.trans hp.1
  · intro h
    cases hx : (filterSel schema vf st s).1 with
    | some x =>
        simp only [hx] at h
        exact SelectionSet.noConfusion h
    | none =>
        simp only [hx] at h
        rw [hq.2 h, hp.2 hx]

mutual
/-- Stack-shape invariant of `filterSel`: the type stack after processing a
selection is a suffix of the stack before it, and is unchanged whenever the
selection is excised. -/
theorem filterSel_stack (schema : GSchema) (vf : List (String × String)) (st : FState) :
    (s : Selection) →
      (filterSel schema vf st s).2.typeStack.IsSuffix st.typeStack ∧
        ((filterSel schema vf st s).1 = none →
          (filterSel schema vf st s).2.typeStack = st.typeStack)
  | .field aliasName name args none =>
      stackSel_field_none schema vf st aliasName name args
  | .field aliasName name args (some ss) =>
      stackSel_field_some schema vf st aliasName name args ss
        (fun st' => filterSels_stack schema vf st' ss)
  | .fragmentSpread name => stackSel_spread schema vf st name
  | .inlineFragment cond ss =>
      stackSel_inline schema vf st cond ss (fun st' => filterSels_stack schema vf st' ss)
/-- Stack-shape invariant of `filterSels`. -/
theorem filterSels_stack (schema : GSchema) (vf : List (String × String)) (st : FState) :
    (ss : SelectionSet) →
      (filterSels schema vf st ss).2.typeStack.IsSuffix st.typeStack ∧
        ((filterSels schema vf st ss).1 = .nil →
          (filterSels schema vf st ss).2.typeStack = st.typeStack)
  | .nil => ⟨List.suffix_rfl, fun _ => rfl⟩
  | .cons s rest =>
      stackSels_cons schema vf st s rest (filterSel_stack schema vf st s)
        (fun st' => filterSels_stack schema vf st' rest)
end

/-- Claim C5 (as stated) fails: a field kept under a scalar-resolved parent
type pushes nothing on enter but still pops on leave. Concretely, filtering
the field `b` with `String` on top of the type stack keeps the node yet
drops the stack entry. -/
theorem claim_C5_counterexample :
    ((filterSel tinySchema [] ⟨[GType.named ("String")], [], []⟩
        (.field none ("b") [] none)).1.isSome = true) ∧
      (filterSel tinySchema [] ⟨[GType.named ("String")], [], []⟩
        (.field none ("b") [] none)).2.typeStack = [] ∧
      (FState.mk [GType.named ("String")] [] []).typeStack ≠ [] := by
  refine ⟨rfl, rfl, ?_⟩
  simp

/-- Claim C5 amended: push/pop pairing does not hold for every parent type
kind; what holds is that the type stack after processing any selection is a
suffix of the stack before it, with equality whenever the selection is
excised (so deletions never desynchronise the stack, while kept fields under
Union/scalar/unresolved parents and condition-less inline fragments can pop
an unmatched entry). -/
theorem claim_C5_amended (schema : GSchema) (vf : List (String × String)) (st : FState)
    (s : Selection) :
    (filterSel schema vf st s).2.typeStack.IsSuffix st.typeStack ∧
      ((filterSel schema vf st s).1 = none →
        (filterSel schema vf st s).2.typeStack = st.typeStack) :=
  filterSel_stack schema vf st s

/-- Witness for claim C5 amended, at a field that is excised on enter. -/
theorem claim_C5_amended_witness :
    (filterSel tinySchema [] ⟨[GType.named ("Q")], [], []⟩
        (.field none ("zz") [] none)).2.typeStack
      = (FState.mk [GType.named ("Q")] [] []).typeStack :=
  (claim_C5_amended tinySchema [] ⟨[GType.named ("Q")], [], []⟩
    (.field none ("zz") [] none)).2 rfl

theorem fieldLeave_isSome_of (schema : GSchema) (a : Option String) (n : String)
    (args : List Argument) (subR : Option SelectionSet) (stR : FState)
    (h : subR = none ∨ subR = some .nil →
      isObjectOrInterface ((topName stR).bind schema.getType) = false) :
    (fieldLeave schema stR a n args subR).1.isSome = true := by
  unfold fieldLeave
  split
  · rename_i hobj
    split
    · exact absurd hobj (by simp [h (Or.inl rfl)])
    · exact absurd hobj (by simp [h (Or.inr rfl)])
    · rfl
  · rfl

/-- Claim C8: a requested `__typename` field whose parent (the resolved top of
the type stack) is an Object, Interface or Union type is always retained: it
is matched against the synthetic meta field, whose `String!` type can never
trigger the empty-sub-selection deletion. (The hypothesis on `String` rules
out schemas that shadow the built-in scalar with an object type.) -/
theorem claim_C8_typename_retained (schema : GSchema) (vf : List (String × String))
    (st : FState) (aliasName : Option String) (args : List Argument)
    (sub : Option SelectionSet)
    (hparent : isObjectOrInterface (topDef schema st) = true ∨
      isUnion (topDef schema st) = true)
    (hstring : schema.getType ("String") = some .scalarT) :
    (filterSel schema vf st (.field aliasName ("__typename") args sub)).1.isSome
      = true := by
  have hbeq : (("__typename") == ("__typename")) = true := by decide
  cases sub with
  | none =>
      rcases hparent with hobj | huni
      · simp only [filterSel]
        cases hpd : (topDef schema st).bind fieldsOfDef with
        | none => exact absurd hobj (by simp [bind_fieldsOfDef_none hpd])
        | some flds =>
            simp only [hpd]
            rw [if_pos (by decide)]
            apply fieldLeave_isSome_of
            intro _
            show isObjectOrInterface (schema.getType ("String")) = false
            rw [hstring]
            rfl
      · obtain ⟨members, htd⟩ : ∃ members, topDef schema st = some (.unionT members) := by
          cases htd : topDef schema st with
          | none => rw [htd] at huni; simp [isUnion] at huni
          | some td =>
              cases td with
              | objectT i f => rw [htd] at huni; simp [isUnion] at huni
              | interfaceT f => rw [htd] at huni; simp [isUnion] at huni
              | unionT m => exact ⟨m, rfl⟩
              | scalarT => rw [htd] at huni; simp [isUnion] at huni
              | enumT => rw [htd] at huni; simp [isUnion] at huni
              | inputObjectT => rw [htd] at huni; simp [isUnion] at huni
        simp only [filterSel]
        cases hpd : (topDef schema st).bind fieldsOfDef with
        | some flds => exfalso; rw [htd] at hpd; simp [fieldsOfDef] at hpd
        | none =>
            simp only [hpd, htd, hbeq]
            apply fieldLeave_isSome_of
            intro _
            show isObjectOrInterface (schema.getType ("String")) = false
            rw [hstring]
            rfl
  | some ss =>
      rcases hparent with hobj | huni
      · simp only [filterSel]
        cases hpd : (topDef schema st).bind fieldsOfDef with
        | none => exact absurd hobj (by simp [bind_fieldsOfDef_none hpd])
        | some flds =>
            simp only [hpd]
            rw [if_pos (by decide)]
            apply fieldLeave_isSome_of
            intro hemp
            rcases hemp with hemp | hemp
            · exact Option.noConfusion hemp
            · have hq := (filterSels_stack schema vf _ ss).2 (Option.some.inj hemp)
              simp only [topName]
              rw [hq]
              show isObjectOrInterface (schema.getType ("String")) = false
              rw [hstring]
              rfl
      · obtain ⟨members, htd⟩ : ∃ members, topDef schema st = some (.unionT members) := by
          cases htd : topDef schema st with
          | none => rw [htd] at huni; simp [isUnion] at huni
          | some td =>
              cases td with
              | objectT i f => rw [htd] at huni; simp [isUnion] at huni
              | interfaceT f => rw [htd] at huni; simp [isUnion] at huni
              | unionT m => exact ⟨m, rfl⟩
              | scalarT => rw [htd] at huni; simp [isUnion] at huni
              | enumT => rw [htd] at huni; simp [isUnion] at huni
              | inputObjectT => rw [htd] at huni; simp [isUnion] at huni
        simp only [filterSel]
        cases hpd : (topDef schema st).bind fieldsOfDef with
        | some flds => exfalso; rw [htd] at hpd; simp [fieldsOfDef] at hpd
        | none =>
            simp only [hpd, htd, hbeq]
            apply fieldLeave_isSome_of
            intro hemp
            rcases hemp with hemp | hemp
            · exact Option.noConfusion hemp
            · have hq := (filterSels_stack schema vf _ ss).2 (Option.some.inj hemp)
              simp only [topName]
              rw [hq]
              show isObjectOrInterface (schema.getType ("String")) = false
              rw [hstring]
              rfl

/-- Witness for claim C8: `__typename` under the object root of `tinySchema`
is retained. -/
theorem claim_C8_witness :
    (filterSel tinySchema [] ⟨[GType.named ("Q")], [], []⟩
        (.field none ("__typename") [] none)).1.isSome = true :=
  claim_C8_typename_retained tinySchema [] ⟨[GType.named ("Q")], [], []⟩ none [] none
    (Or.inl rfl) rfl

/-- Operation signature: kind and name, used to state that filtering drops no
operation. -/
def opSig (op : OperationDef) : OpKind × Option String := (op.operation, op.name)

theorem processOperations_sigs (schema : GSchema) (fuel : Nat) (vfrags : List FragDef)
    (vf : List (String × String)) (ops : List OperationDef) :
    ∀ (s s' : DocState), processOperations schema fuel vfrags vf ops s = some s' →
      s'.newOperations.map opSig = s.newOperations.map opSig ++ ops.map opSig := by
  induction ops with
  | nil =>
      intro s s' h
      simp only [processOperations] at h
      injection h with h
      subst h
      simp
  | cons op rest ih =>
      intro s s' h
      simp only [processOperations] at h
      split at h
      · exact absurd h (by simp)
      · have ihv := ih _ s' h
        rw [ihv]
        simp [opSig]

theorem docOperations_opD_append (A : List OperationDef) (rest : List Definition) :
    docOperations ⟨A.map Definition.opD ++ rest⟩ = A ++ docOperations ⟨rest⟩ := by
  induction A with
  | nil => rfl
  | cons op ops ih => simpa [docOperations] using ih

theorem docOperations_fragD (B : List FragDef) :
    docOperations ⟨B.map Definition.fragD⟩ = [] := by
  induction B with
  | nil => rfl
  | cons f fs ih => simp only [docOperations, List.map_cons, List.filterMap_cons] at ih ⊢; exact ih

/-- Claim C7: every input operation reappears in the filtered output document
with its kind and name, even when its root selection set was filtered to
empty; `filterDocumentToSchema` never drops an operation. -/
theorem claim_C7_operations_preserved (schema : GSchema) (fuel : Nat)
    (doc out : DocumentNode) (h : filterDocumentToSchema schema fuel doc = some out) :
    (docOperations out).map opSig = (docOperations doc).map opSig := by
  unfold filterDocumentToSchema at h
  cases hp : processOperations schema fuel (validFragmentsOf schema doc)
      (validFragmentsWithTypeOf schema doc) (docOperations doc) ⟨[], [], [], []⟩ with
  | none => rw [hp] at h; simp at h
  | some s' =>
      rw [hp] at h
      rw [Option.map_some'] at h
      injection h with h
      subst h
      have hs := processOperations_sigs schema fuel (validFragmentsOf schema doc)
        (validFragmentsWithTypeOf schema doc) (docOperations doc) ⟨[], [], [], []⟩ s' hp
      rw [docOperations_opD_append, docOperations_fragD]
      simpa using hs

/-- Witness for claim C7: an operation whose single root field is excised is
still emitted (with an empty root selection set). -/
theorem claim_C7_witness :
    (docOperations ⟨[.opD ⟨.query, none, [], .nil⟩]⟩).map opSig
      = (docOperations ⟨[.opD ⟨.query, none, [],
          .cons (.field none ("x") [] none) .nil⟩]⟩).map opSig :=
  claim_C7_operations_preserved
    ⟨[(("Q"), .objectT [] [])], some ("Q"), none, none⟩ 1
    ⟨[.opD ⟨.query, none, [], .cons (.field none ("x") [] none) .nil⟩]⟩
    ⟨[.opD ⟨.query, none, [], .nil⟩]⟩ rfl

theorem keepLeave (schema : GSchema) (stR : FState) (a : Option String) (n : String)
    (args : List Argument) (sub : Option SelectionSet)
    (hnotobj : isObjectOrInterface ((topName stR).bind schema.getType) = false) :
    fieldLeave schema stR a n args sub
      = (some (.field a n args sub),
         FState.mk stR.typeStack.tail stR.usedFragments stR.usedVariables) := by
  unfold fieldLeave
  rw [if_neg (by simp [hnotobj])]

theorem keepLeave_cons (schema : GSchema) (stR : FState) (a : Option String)
    (n : String) (args : List Argument) (x : Selection) (r : SelectionSet) :
    fieldLeave schema stR a n args (some (.cons x r))
      = (some (.field a n args (some (.cons x r))),
         FState.mk stR.typeStack.tail stR.usedFragments stR.usedVariables) := by
  unfold fieldLeave
  split <;> rfl

theorem validSel_field_none (schema : GSchema) (vf : List (String × String))
    (st : FState) (cur : String) (aliasName : Option String) (name : String)
    (args : List Argument)
    (hcur : topName st = some cur)
    (hv : validSel schema vf cur (.field aliasName name args none) = true) :
    filterSel schema vf st (.field aliasName name args none)
      = (some (.field aliasName name args none),
         FState.mk st.typeStack
           (st.usedFragments ++ selSpreads (.field aliasName name args none))
           (st.usedVariables ++ selVars (.field aliasName name args none))) := by
  unfold validSel at hv
  cases hpd : (schema.getType cur).bind fieldsOfDef with
  | none => simp only [hpd] at hv; exact absurd hv (by simp)
  | some fields =>
      simp only [hpd] at hv
      cases hfd : (if name == ("__typename") then some typenameMetaField
                   else fields.find? (fun f => f.name == name)) with
      | none => simp only [hfd] at hv; exact absurd hv (by simp)
      | some fd =>
          simp only [hfd] at hv
          simp only [Bool.and_eq_true] at hv
          obtain ⟨hargs, hsub⟩ := hv
          cases hobj : isObjectOrInterface
              (schema.getType (resolveTypeName fd.type)) with
          | true => rw [hobj] at hsub; exact absurd hsub (by simp)
          | false =>
              rw [hobj] at hsub
              have htop : (topDef schema st).bind fieldsOfDef = some fields := by
                simp only [topDef, hcur, Option.some_bind]
                exact hpd
              simp only [filterSel, htop, hfd]
              have hargs' : args.filter (fun a => fd.args.contains a.name) = args :=
                List.filter_eq_self.mpr (by simpa using hargs)
              rw [hargs']
              rw [keepLeave schema _ aliasName name args none (by simpa [topName] using hobj)]
              simp [selVars, selSpreads]

theorem validSel_field_some (schema : GSchema) (vf : List (String × String))
    (st : FState) (cur : String) (aliasName : Option String) (name : String)
    (args : List Argument) (ss : SelectionSet)
    (hcur : topName st = some cur)
    (hv : validSel schema vf cur (.field aliasName name args (some ss)) = true)
    (IH : ∀ (st' : FState) (cur' : String), topName st' = some cur' →
      validSels schema vf cur' ss = true →
      filterSels schema vf st' ss
        = (ss, FState.mk st'.typeStack (st'.usedFragments ++ selsSpreads ss)
            (st'.usedVariables ++ selsVars ss))) :
    filterSel schema vf st (.field aliasName name args (some ss))
      = (some (.field aliasName name args (some ss)),
         FState.mk st.typeStack
           (st.usedFragments ++ selSpreads (.field aliasName name args (some ss)))
           (st.usedVariables ++ selVars (.field aliasName name args (some ss)))) := by
  unfold validSel at hv
  cases hpd : (schema.getType cur).bind fieldsOfDef with
  | none => simp only [hpd] at hv; exact absurd hv (by simp)
  | some fields =>
      simp only [hpd] at hv
      cases hfd : (if name == ("__typename") then some typenameMetaField
                   else fields.find? (fun f => f.name == name)) with
      | none => simp only [hfd] at hv; exact absurd hv (by simp)
      | some fd =>
          simp only [hfd] at hv
          simp only [Bool.and_eq_true] at hv
          obtain ⟨hargs, hsub⟩ := hv
          cases hobj : isObjectOrInterface
              (schema.getType (resolveTypeName fd.type)) with
          | false => rw [hobj] at hsub; exact absurd hsub (by simp)
          | true =>
              rw [hobj] at hsub
              cases ss with
              | nil => exact absurd hsub (by simp)
              | cons s0 rest0 =>
                  have htop : (topDef schema st).bind fieldsOfDef = some fields := by
                    simp only [topDef, hcur, Option.some_bind]
                    exact hpd
                  simp only [filterSel, htop, hfd]
                  have hargs' : args.filter (fun a => fd.args.contains a.name) = args :=
                    List.filter_eq_self.mpr (by simpa using hargs)
                  rw [hargs']
                  rw [IH (FState.mk (fd.type :: st.typeStack) st.usedFragments
                        (st.usedVariables ++ varsOfArgs args))
                      (resolveTypeName fd.type) rfl hsub]
                  rw [keepLeave_cons]
                  simp [selVars, selSpreads, List.append_assoc]

theorem validSel_spread (schema : GSchema) (vf : List (String × String))
    (st : FState) (cur : String) (name : String)
    (hcur : topName st = some cur)
    (hv : validSel schema vf cur (.fragmentSpread name) = true) :
    filterSel schema vf st (.fragmentSpread name)
      = (some (.fragmentSpread name),
         FState.mk st.typeStack
           (st.usedFragments ++ selSpreads (.fragmentSpread name))
           (st.usedVariables ++ selVars (.fragmentSpread name))) := by
  unfold validSel at hv
  cases hf : vf.find? (fun pr => pr.1 == name) with
  | none => simp only [hf] at hv; exact absurd hv (by simp)
  | some pr =>
      simp only [hf] at hv
      simp only [filterSel, hf]
      rw [hcur, if_pos hv]
      simp [selSpreads, selVars]

theorem validSel_inline (schema : GSchema) (vf : List (String × String))
    (st : FState) (cur : String) (cond : Option String) (ss : SelectionSet)
    (hcur : topName st = some cur)
    (hv : validSel schema vf cur (.inlineFragment cond ss) = true)
    (IH : ∀ (st' : FState) (cur' : String), topName st' = some cur' →
      validSels schema vf cur' ss = true →
      filterSels schema vf st' ss
        = (ss, FState.mk st'.typeStack (st'.usedFragments ++ selsSpreads ss)
            (st'.usedVariables ++ selsVars ss))) :
    filterSel schema vf st (.inlineFragment cond ss)
      = (some (.inlineFragment cond ss),
         FState.mk st.typeStack
           (st.usedFragments ++ selSpreads (.inlineFragment cond ss))
           (st.usedVariables ++ selVars (.inlineFragment cond ss))) := by
  cases cond with
  | none => simp [validSel] at hv
  | some c =>
      unfold validSel at hv
      simp only [Bool.and_eq_true] at hv
      obtain ⟨⟨hex, himp⟩, hvs⟩ := hv
      simp only [filterSel]
      rw [if_pos hex]
      rw [hcur]
      rw [if_pos himp]
      rw [IH (FState.mk (GType.named c :: st.typeStack) st.usedFragments
            st.usedVariables) c rfl hvs]
      simp [selVars, selSpreads]

theorem validSels_cons (schema : GSchema) (vf : List (String × String))
    (st : FState) (cur : String) (s : Selection) (rest : SelectionSet)
    (hcur : topName st = some cur)
    (hv : validSels schema vf cur (.cons s rest) = true)
    (hhead : ∀ (st' : FState) (cur' : String), topName st' = some cur' →
      validSel schema vf cur' s = true →
      filterSel schema vf st' s
        = (some s, FState.mk st'.typeStack (st'.usedFragments ++ selSpreads s)
            (st'.usedVariables ++ selVars s)))
    (htail : ∀ (st' : FState) (cur' : String), topName st' = some cur' →
      validSels schema vf cur' rest = true →
      filterSels schema vf st' rest
        = (rest, FState.mk st'.typeStack (st'.usedFragments ++ selsSpreads rest)
            (st'.usedVariables ++ selsVars rest))) :
    filterSels schema vf st (.cons s rest)
      = (.cons s rest, FState.mk st.typeStack
          (st.usedFragments ++ selsSpreads (.cons s rest))
          (st.usedVariables ++ selsVars (.cons s rest))) := by
  simp only [validSels, Bool.and_eq_true] at hv
  obtain ⟨hv1, hv2⟩ := hv
  simp only [filterSels]
  rw [hhead st cur hcur hv1]
  rw [htail (FState.mk st.typeStack (st.usedFragments ++ selSpreads s)
        (st.usedVariables ++ selVars s))
      cur (by simpa [topName] using hcur) hv2]
  simp [selsVars, selsSpreads, List.append_assoc]

mutual
/-- Identity of filtering on valid selections: a selection valid against the
resolved top of the type stack passes through `filterSel` unchanged, only
appending its fragment-spread names to the used-fragment array and its
variable occurrences to the used-variable array. -/
theorem filterSel_valid (schema : GSchema) (vf : List (String × String)) :
    (s : Selection) → ∀ (st : FState) (cur : String), topName st = some cur →
      validSel schema vf cur s = true →
      filterSel schema vf st s
        = (some s, FState.mk st.typeStack (st.usedFragments ++ selSpreads s)
            (st.usedVariables ++ selVars s))
  | .field aliasName name args none => fun st cur hcur hv =>
      validSel_field_none schema vf st cur aliasName name args hcur hv
  | .field aliasName name args (some ss) => fun st cur hcur hv =>
      validSel_field_some schema vf st cur aliasName name args ss hcur hv
        (fun st' cur' h1 h2 => filterSels_valid schema vf ss st' cur' h1 h2)
  | .fragmentSpread name => fun st cur hcur hv =>
      validSel_spread schema vf st cur name hcur hv
  | .inlineFragment cond ss => fun st cur hcur hv =>
      validSel_inline schema vf st cur cond ss hcur hv
        (fun st' cur' h1 h2 => filterSels_valid schema vf ss st' cur' h1 h2)
/-- Identity of filtering on valid selection sets. -/
theorem filterSels_valid (schema : GSchema) (vf : List (String × String)) :
    (ss : SelectionSet) → ∀ (st : FState) (cur : String), topName st = some cur →
      validSels schema vf cur ss = true →
      filterSels schema vf st ss
        = (ss, FState.mk st.typeStack (st.usedFragments ++ selsSpreads ss)
            (st.usedVariables ++ selsVars ss))
  | .nil => fun st cur _ _ => by simp [filterSels, selsVars, selsSpreads]
  | .cons s rest => fun st cur hcur hv =>
      validSels_cons schema vf st cur s rest hcur hv
        (fun st' cur' h1 h2 => filterSel_valid schema vf s st' cur' h1 h2)
        (fun st' cur' h1 h2 => filterSels_valid schema vf rest st' cur' h1 h2)
end

/-- Claim C4 (as stated) fails: `docC4` is already valid against `schemaTS`
(both operations and the fragment use only existing fields and a compatible
existing type condition, and no selection set empties), yet the output
document contains no fragment definition while the input has one — the
output cannot print identically to the input. -/
theorem claim_C4_counterexample :
    (filterDocumentToSchema schemaTS 10 docC4).map (fun d => (docFragNames d).length)
        = some 0 ∧ (docFragNames docC4).length = 1 :=
  ⟨rfl, rfl⟩

theorem dedupFold_mem (x : String) (l : List String) (acc : List String) :
    (x ∈ l.foldl (fun acc item =>
        if acc.contains item || jsObjectProtoKeys.contains item then acc
        else acc ++ [item]) acc)
      ↔ x ∈ acc ∨ (x ∈ l ∧ x ∉ jsObjectProtoKeys) := by
  induction l generalizing acc with
  | nil => simp
  | cons i rest ih =>
      simp only [List.foldl_cons]
      rw [ih]
      by_cases hi : i ∈ acc ∨ i ∈ jsObjectProtoKeys
      · rw [if_pos (by simpa using hi)]
        constructor
        · rintro (h | h)
          · exact Or.inl h
          · exact Or.inr ⟨List.mem_cons_of_mem _ h.1, h.2⟩
        · rintro (h | ⟨hm, hp⟩)
          · exact Or.inl h
          · rcases List.mem_cons.mp hm with rfl | hm'
            · rcases hi with h1 | h2
              · exact Or.inl h1
              · exact absurd h2 hp
            · exact Or.inr ⟨hm', hp⟩
      · push_neg at hi
        rw [if_neg (by simpa using hi)]
        obtain ⟨hnacc, hnp⟩ := hi
        constructor
        · rintro (h | ⟨hm, hp⟩)
          · rcases List.mem_append.mp h with h' | h'
            · exact Or.inl h'
            · have hx : x = i := List.mem_singleton.mp h'
              subst hx
              exact Or.inr ⟨List.mem_cons_self _ _, hnp⟩
          · exact Or.inr ⟨List.mem_cons_of_mem _ hm, hp⟩
        · rintro (h | ⟨hm, hp⟩)
          · exact Or.inl (List.mem_append.mpr (Or.inl h))
          · rcases List.mem_cons.mp hm with rfl | hm'
            · exact Or.inl (List.mem_append.mpr (Or.inr (List.mem_singleton.mpr rfl)))
            · exact Or.inr ⟨hm', hp⟩

theorem mem_union2 (x : String) (l m : List String) :
    x ∈ union2 l m ↔ (x ∈ l ∨ x ∈ m) ∧ x ∉ jsObjectProtoKeys := by
  unfold union2
  rw [dedupFold_mem]
  simp

theorem dedupFold_const (a : String) :
    ∀ (l : List String), (∀ n ∈ l, n = a) →
      l.foldl (fun acc item =>
        if acc.contains item || jsObjectProtoKeys.contains item then acc
        else acc ++ [item]) [a] = [a]
  | [], _ => rfl
  | i :: rest, h => by
      have hi : i = a := h i (List.mem_cons_self _ _)
      subst hi
      simp only [List.foldl_cons]
      rw [if_pos (by simp)]
      exact dedupFold_const i rest (fun n hn => h n (List.mem_cons_of_mem _ hn))

theorem union2_const (a : String) (l : List String) (hne : l ≠ [])
    (hall : ∀ n ∈ l, n = a) (hp : a ∉ jsObjectProtoKeys) :
    union2 [] l = [a] := by
  cases l with
  | nil => exact absurd rfl hne
  | cons i rest =>
      have hi : i = a := hall i (List.mem_cons_self _ _)
      subst hi
      unfold union2
      simp only [List.nil_append, List.foldl_cons]
      rw [if_neg (by simpa using hp)]
      exact dedupFold_const i rest (fun n hn => hall n (List.mem_cons_of_mem _ hn))

theorem collectLoop_nil (schema : GSchema) (vfrags : List FragDef)
    (vf : List (String × String)) (n : Nat) (s : CState) (h : s.worklist = []) :
    collectLoop schema vfrags vf n s = some s := by
  cases n <;> simp [collectLoop, h]

theorem docFragments_opD (ops : List OperationDef) :
    docFragments ⟨ops.map Definition.opD⟩ = [] := by
  induction ops with
  | nil => rfl
  | cons o rest ih =>
      simp only [docFragments, List.map_cons, List.filterMap_cons] at ih ⊢
      exact ih

theorem processOps_ff (schema : GSchema) (fuel : Nat) :
    ∀ (ops : List OperationDef),
      (∀ op ∈ ops, ∃ rt, opRootType schema op.operation = some rt ∧
        validSels schema [] (resolveTypeName rt) op.selections = true ∧
        selsSpreads op.selections = [] ∧
        ∀ vd ∈ op.variableDefinitions, vd.varName ∈ selsVars op.selections ∧
          vd.varName ∉ jsObjectProtoKeys) →
      ∀ (acc : List OperationDef) (fs : List String),
        processOperations schema fuel [] [] ops ⟨[], acc, [], fs⟩
          = some ⟨[], acc ++ ops, [], fs⟩ := by
  intro ops
  induction ops with
  | nil => intro _ acc fs; simp [processOperations]
  | cons op rest ih =>
      intro hops acc fs
      obtain ⟨rt, hroot, hvalid, hspr, hvars⟩ := hops op (List.mem_cons_self _ _)
      have hp := filterSels_valid schema [] op.selections (FState.mk [rt] [] [])
        (resolveTypeName rt) rfl hvalid
      have hfss : filterSelectionSet schema (some rt) [] op.selections
          = ⟨op.selections, selsSpreads op.selections, selsVars op.selections⟩ := by
        show FilterOut.mk (filterSels schema [] (FState.mk [rt] [] []) op.selections).1
            ((filterSels schema [] (FState.mk [rt] [] []) op.selections).2.usedFragments)
            ((filterSels schema [] (FState.mk [rt] [] []) op.selections).2.usedVariables)
          = FilterOut.mk op.selections (selsSpreads op.selections)
              (selsVars op.selections)
        rw [hp]
        simp
      rw [hspr] at hfss
      have hc : collectFragmentVariables schema fuel fs [] [] []
          = some ⟨[], [], fs, []⟩ := by
        unfold collectFragmentVariables
        rw [collectLoop_nil schema [] [] fuel _ rfl]
        rfl
      have hfilter : op.variableDefinitions.filter
          (fun vd => (union2 (selsVars op.selections) []).contains vd.varName)
          = op.variableDefinitions := by
        rw [List.filter_eq_self]
        intro vd hvd
        have hm : vd.varName ∈ union2 (selsVars op.selections) [] :=
          (mem_union2 _ _ _).mpr ⟨Or.inl (hvars vd hvd).1, (hvars vd hvd).2⟩
        simpa using hm
      simp only [processOperations]
      rw [hroot, hfss]
      rw [show (union2 (DocState.mk [] acc [] fs).usedFragments
          (FilterOut.mk op.selections [] (selsVars op.selections)).usedFragments)
          = ([] : List String) from rfl]
      rw [hc]
      show processOperations schema fuel [] [] rest
          (DocState.mk [] (acc ++ [OperationDef.mk op.operation op.name
            (op.variableDefinitions.filter
              (fun vd => (union2 (selsVars op.selections) []).contains vd.varName))
            op.selections]) [] fs)
        = some (DocState.mk [] (acc ++ (op :: rest)) [] fs)
      rw [hfilter]
      rw [show (OperationDef.mk op.operation op.name op.variableDefinitions
          op.selections) = op from rfl]
      rw [ih (fun o ho => hops o (List.mem_cons_of_mem _ ho)) (acc ++ [op]) fs]
      simp

theorem filterDoc_ff (schema : GSchema) (fuel : Nat) (ops : List OperationDef)
    (hops : ∀ op ∈ ops, ∃ rt, opRootType schema op.operation = some rt ∧
      validSels schema [] (resolveTypeName rt) op.selections = true ∧
      selsSpreads op.selections = [] ∧
      ∀ vd ∈ op.variableDefinitions, vd.varName ∈ selsVars op.selections ∧
        vd.varName ∉ jsObjectProtoKeys) :
    filterDocumentToSchema schema fuel ⟨ops.map Definition.opD⟩
      = some ⟨ops.map Definition.opD⟩ := by
  have hvfr : validFragmentsOf schema ⟨ops.map Definition.opD⟩ = [] := by
    unfold validFragmentsOf
    rw [docFragments_opD]
    rfl
  have hvft : validFragmentsWithTypeOf schema ⟨ops.map Definition.opD⟩ = [] := by
    unfold validFragmentsWithTypeOf
    rw [hvfr]
    rfl
  have hdo : docOperations ⟨ops.map Definition.opD⟩ = ops := by
    have h2 := docOperations_opD_append ops []
    simpa [docOperations] using h2
  unfold filterDocumentToSchema
  rw [hvfr, hvft, hdo]
  rw [processOps_ff schema fuel ops hops [] []]
  simp

theorem filterDoc_opFrag (schema : GSchema) (fuel : Nat) (op : OperationDef)
    (F : FragDef) (rt : GType)
    (hroot : opRootType schema op.operation = some rt)
    (htc : (schema.getType F.typeCondition).isSome = true)
    (hvOp : validSels schema [(F.name, F.typeCondition)] (resolveTypeName rt)
      op.selections = true)
    (hvF : validSels schema [(F.name, F.typeCondition)] F.typeCondition
      F.selections = true)
    (hsprF : selsSpreads F.selections = [])
    (hsprNe : selsSpreads op.selections ≠ [])
    (hsprAll : ∀ n ∈ selsSpreads op.selections, n = F.name)
    (hFp : F.name ∉ jsObjectProtoKeys)
    (hvars : ∀ vd ∈ op.variableDefinitions,
      (vd.varName ∈ selsVars op.selections ∨ vd.varName ∈ selsVars F.selections) ∧
        vd.varName ∉ jsObjectProtoKeys) :
    filterDocumentToSchema schema (fuel + 1) ⟨[.opD op, .fragD F]⟩
      = some ⟨[.opD op, .fragD F]⟩ := by
  have hvfr : validFragmentsOf schema ⟨[.opD op, .fragD F]⟩ = [F] := by
    unfold validFragmentsOf
    show List.filter _ [F] = [F]
    simp [List.filter_cons, htc]
  have hvft : validFragmentsWithTypeOf schema ⟨[.opD op, .fragD F]⟩
      = [(F.name, F.typeCondition)] := by
    unfold validFragmentsWithTypeOf
    rw [hvfr]
    rfl
  have hdo : docOperations ⟨[.opD op, .fragD F]⟩ = [op] := rfl
  have hpOp := filterSels_valid schema [(F.name, F.typeCondition)] op.selections
    (FState.mk [rt] [] []) (resolveTypeName rt) rfl hvOp
  have hfssOp : filterSelectionSet schema (some rt) [(F.name, F.typeCondition)]
      op.selections
      = ⟨op.selections, selsSpreads op.selections, selsVars op.selections⟩ := by
    show FilterOut.mk
        (filterSels schema [(F.name, F.typeCondition)] (FState.mk [rt] [] [])
          op.selections).1
        ((filterSels schema [(F.name, F.typeCondition)] (FState.mk [rt] [] [])
          op.selections).2.usedFragments)
        ((filterSels schema [(F.name, F.typeCondition)] (FState.mk [rt] [] [])
          op.selections).2.usedVariables)
      = FilterOut.mk op.selections (selsSpreads op.selections)
          (selsVars op.selections)
    rw [hpOp]
    simp
  have hpF := filterSels_valid schema [(F.name, F.typeCondition)] F.selections
    (FState.mk [GType.named F.typeCondition] [] []) F.typeCondition rfl hvF
  have hfssF : filterSelectionSet schema (some (GType.named F.typeCondition))
      [(F.name, F.typeCondition)] F.selections
      = ⟨F.selections, [], selsVars F.selections⟩ := by
    show FilterOut.mk
        (filterSels schema [(F.name, F.typeCondition)]
          (FState.mk [GType.named F.typeCondition] [] []) F.selections).1
        ((filterSels schema [(F.name, F.typeCondition)]
          (FState.mk [GType.named F.typeCondition] [] []) F.selections).2.usedFragments)
        ((filterSels schema [(F.name, F.typeCondition)]
          (FState.mk [GType.named F.typeCondition] [] []) F.selections).2.usedVariables)
      = FilterOut.mk F.selections [] (selsVars F.selections)
    rw [hpF]
    simp [hsprF]
  have hu1 : union2 [] (selsSpreads op.selections) = [F.name] :=
    union2_const F.name (selsSpreads op.selections) hsprNe hsprAll hFp
  have hstep : collectStep schema [F] [(F.name, F.typeCondition)]
      ⟨[F.name], [F.name], true, [], [], []⟩
      = ⟨[], [], false, union2 [] (selsVars F.selections),
         [⟨F.name, F.typeCondition, F.selections⟩], [F.name]⟩ := by
    unfold collectStep
    simp only [List.getLast?, List.getLast, List.dropLast, List.find?,
      beq_self_eq_true, htc, if_true]
    rw [hfssF]
    rw [if_neg (by simp)]
    rfl
  have hcollect : collectFragmentVariables schema (fuel + 1) [] [F]
      [(F.name, F.typeCondition)] [F.name]
      = some ⟨union2 [] (selsVars F.selections),
          [⟨F.name, F.typeCondition, F.selections⟩], [F.name], []⟩ := by
    unfold collectFragmentVariables
    rw [show collectLoop schema [F] [(F.name, F.typeCondition)] (fuel + 1)
        ⟨[F.name], [F.name], true, [], [], []⟩
      = collectLoop schema [F] [(F.name, F.typeCondition)] fuel
          (collectStep schema [F] [(F.name, F.typeCondition)]
            ⟨[F.name], [F.name], true, [], [], []⟩) from rfl]
    rw [hstep]
    rw [collectLoop_nil schema [F] [(F.name, F.typeCondition)] fuel _ rfl]
    rfl
  have hfilter : op.variableDefinitions.filter
      (fun vd => (union2 (selsVars op.selections)
        (union2 [] (selsVars F.selections))).contains vd.varName)
      = op.variableDefinitions := by
    rw [List.filter_eq_self]
    intro vd hvd
    obtain ⟨hor, hnp⟩ := hvars vd hvd
    have hm : vd.varName ∈ union2 (selsVars op.selections)
        (union2 [] (selsVars F.selections)) := by
      rcases hor with h | h
      · exact (mem_union2 _ _ _).mpr ⟨Or.inl h, hnp⟩
      · exact (mem_union2 _ _ _).mpr
          ⟨Or.inr ((mem_union2 _ _ _).mpr ⟨Or.inr h, hnp⟩), hnp⟩
    simpa using hm
  unfold filterDocumentToSchema
  rw [hvfr, hvft, hdo]
  have e2 : processOperations schema (fuel + 1) [F] [(F.name, F.typeCondition)]
      [op] ⟨[], [], [], []⟩
      = some ⟨[], [op], [⟨F.name, F.typeCondition, F.selections⟩], [F.name]⟩ := by
    simp only [processOperations]
    rw [hroot, hfssOp]
    rw [show (union2 (DocState.mk [] [] [] []).usedFragments
        (FilterOut.mk op.selections (selsSpreads op.selections)
          (selsVars op.selections)).usedFragments)
        = union2 [] (selsSpreads op.selections) from rfl]
    rw [hu1]
    rw [hcollect]
    show processOperations schema (fuel + 1) [F] [(F.name, F.typeCondition)] []
        (DocState.mk [] ([] ++ [OperationDef.mk op.operation op.name
          (op.variableDefinitions.filter
            (fun vd => (union2 (selsVars op.selections)
              (union2 [] (selsVars F.selections))).contains vd.varName))
          op.selections]) [⟨F.name, F.typeCondition, F.selections⟩] [F.name])
      = some ⟨[], [op], [⟨F.name, F.typeCondition, F.selections⟩], [F.name]⟩
    rw [hfilter]
    rfl
  rw [e2]
  rfl

/-- Claim C4 amended: FilterToSchema returns the identical document on
already-valid documents of two shapes, provided no referenced variable name
and no spread fragment name is a property name inherited from JavaScript
`Object.prototype`: (a) any fragment-free document, with any number of
operations, each valid against the schema with every defined variable
referenced; (b) a single valid operation followed by the one fragment it
spreads, whose own body is valid and spread-free. The prototype-name proviso
is forced by the `union` helper: its `{}` cache treats names such as
`toString` as already seen, so a variable or fragment of that name is
silently dropped from the used sets and its definition is filtered away.
For multi-operation documents sharing fragments, identity fails
(`claim_C4_counterexample`). -/
theorem claim_C4_amended :
    (∀ (schema : GSchema) (fuel : Nat) (ops : List OperationDef),
      (∀ op ∈ ops, ∃ rt, opRootType schema op.operation = some rt ∧
        validSels schema [] (resolveTypeName rt) op.selections = true ∧
        selsSpreads op.selections = [] ∧
        ∀ vd ∈ op.variableDefinitions, vd.varName ∈ selsVars op.selections ∧
          vd.varName ∉ jsObjectProtoKeys) →
      filterDocumentToSchema schema fuel ⟨ops.map Definition.opD⟩
        = some ⟨ops.map Definition.opD⟩)
    ∧ (∀ (schema : GSchema) (fuel : Nat) (op : OperationDef) (F : FragDef)
        (rt : GType),
      opRootType schema op.operation = some rt →
      (schema.getType F.typeCondition).isSome = true →
      validSels schema [(F.name, F.typeCondition)] (resolveTypeName rt)
        op.selections = true →
      validSels schema [(F.name, F.typeCondition)] F.typeCondition
        F.selections = true →
      selsSpreads F.selections = [] →
      selsSpreads op.selections ≠ [] →
      (∀ n ∈ selsSpreads op.selections, n = F.name) →
      F.name ∉ jsObjectProtoKeys →
      (∀ vd ∈ op.variableDefinitions,
        (vd.varName ∈ selsVars op.selections ∨ vd.varName ∈ selsVars F.selections) ∧
          vd.varName ∉ jsObjectProtoKeys) →
      filterDocumentToSchema schema (fuel + 1) ⟨[.opD op, .fragD F]⟩
        = some ⟨[.opD op, .fragD F]⟩) :=
  ⟨fun schema fuel ops hops => filterDoc_ff schema fuel ops hops,
   fun schema fuel op F rt h1 h2 h3 h4 h5 h6 h7 h8 h9 =>
     filterDoc_opFrag schema fuel op F rt h1 h2 h3 h4 h5 h6 h7 h8 h9⟩

/-- Single valid operation used by the C4 witness: `query { a(x: $v) }` with
variable definition `$v`. -/
def opC4w : OperationDef :=
  ⟨.query, none, [⟨("v"), ("String")⟩],
   .cons (.field none ("a") [⟨("x"), .var ("v")⟩] none) .nil⟩

/-- Witness for claim C4 amended: the valid fragment-free document over
`tinySchema` and the valid operation-plus-its-fragment document over
`schemaTS` are both returned unchanged. -/
theorem claim_C4_amended_witness :
    filterDocumentToSchema tinySchema 5 ⟨[.opD opC4w]⟩ = some ⟨[.opD opC4w]⟩
    ∧ filterDocumentToSchema schemaTS 4 ⟨[.opD (opUsingF ("Op1")), .fragD fragF]⟩
        = some ⟨[.opD (opUsingF ("Op1")), .fragD fragF]⟩ :=
  ⟨claim_C4_amended.1 tinySchema 5 [opC4w]
     (by
       intro op hop
       rw [List.mem_singleton] at hop
       subst hop
       exact ⟨.named ("Q"), rfl, by decide, rfl, by decide⟩),
   claim_C4_amended.2 schemaTS 3 (opUsingF ("Op1")) fragF (.named ("Query"))
     rfl rfl (by decide) (by decide) rfl (by decide) (by decide) (by decide)
     (by decide)⟩

end GQL
